import Mathlib

/-!
# Verification of the ADLVisualizer data-export pipelines

Shallow embedding of the two Python export scripts of the ADLVisualizer
repository:

* `scripts/data/export_flow_data.py` — the flow aggregator: a single pass
  over the raw record table accumulating per-asset totals, per-account-pair
  directed flow totals and per-second time buckets, followed by assembly of
  the sorted time-bucket series, top-50 account sets and the metadata block.
* `scripts/data/export_adl_events_json.py` — the record normalizer:
  per-record timestamp parsing (`parse_timestamp`), side inference
  (`determine_side`), field coalescing, and the final stable sort by
  timestamp.

Modelling conventions:

* Python `float` values are modelled as `ℚ`; all inputs of interest are
  exact decimals, and in-range accumulation in the scripts is modelled by
  exact rational arithmetic.
* A pandas cell that may be missing/NaN is modelled as an `Option`; `none`
  plays the role of NaN (`pd.isna`), so `pd.notna` checks become `Option`
  pattern matches.
* Python `dict` (and `defaultdict`) is modelled as an association list in
  insertion order; `d[k] += v` is the `bump` operation below, which updates
  an existing key in place or appends a fresh key at the end, exactly like
  dict insertion-order semantics.
* Python's stable sorts (`sorted`, `list.sort`) are modelled by
  `List.insertionSort`, which is a stable sort; for the total preorders used
  here a stable sort is unique, so this coincides with the Python result.
* `int(x)` on a float is truncation toward zero, modelled by `truncQ`;
  `int(timestamp_ms / 1000)` is modelled by `Int.tdiv timestamp_ms 1000`
  (float division followed by truncation toward zero, exact for the
  magnitudes representable without rounding at the millisecond scale).
-/

/-! ## Association-list primitives (Python dict in insertion order) -/

/-- `d[k] += v` on a `defaultdict(float)`: update the value at an existing
key in place, or append the new key at the end (dict insertion order). -/
def bump {α : Type} [DecidableEq α] : List (α × ℚ) → α → ℚ → List (α × ℚ)
  | [], k, v => [(k, v)]
  | (k', x) :: t, k, v =>
    if k' = k then (k', x + v) :: t else (k', x) :: bump t k v

/-- Dictionary lookup with default `0` (reading a `defaultdict(float)`). -/
def getD {α : Type} [DecidableEq α] : List (α × ℚ) → α → ℚ
  | [], _ => 0
  | (k', x) :: t, k => if k' = k then x else getD t k

/-- Sum of all values of a dictionary (`sum(d.values())`). -/
def sumValues {α : Type} (l : List (α × ℚ)) : ℚ := (l.map (·.2)).sum

/-! ## Flow aggregator data model (`export_flow_data.py`) -/

/-- One row of the input table as read by the flow aggregator: the fixed
columns `time`, `coin`, `user`, `liquidated_user`, `adl_notional`.
`adl_notional` is `none` when the cell is missing/NaN (`pd.isna`). -/
structure FlowRecord where
  time : Int
  coin : String
  user : String
  liquidated_user : String
  adl_notional : Option ℚ
deriving DecidableEq

/-- The per-second bucket accumulator created by the `time_buckets`
defaultdict. `cumulativeNotional` is, as in the source, the *in-bucket*
notional sum (it is renamed `notionalInBucket` at serialization time). -/
structure Bucket where
  assetFlows : List ((String × String) × ℚ)
  accountFlows : List ((String × String) × ℚ)
  liquidatedByAsset : List (String × ℚ)
  adldByAsset : List (String × ℚ)
  cumulativeNotional : ℚ
  eventCount : Nat
deriving DecidableEq

/-- The zero bucket produced by the `time_buckets` defaultdict factory. -/
def emptyBucket : Bucket :=
  { assetFlows := [], accountFlows := [], liquidatedByAsset := [],
    adldByAsset := [], cumulativeNotional := 0, eventCount := 0 }

/-- The in-bucket updates of one contributing record (source lines 100–105). -/
def bucketAdd (b : Bucket) (asset lu tu : String) (n : ℚ) : Bucket :=
  { assetFlows := bump b.assetFlows (asset, asset) n
    accountFlows := bump b.accountFlows (lu, tu) n
    liquidatedByAsset := bump b.liquidatedByAsset asset n
    adldByAsset := bump b.adldByAsset asset n
    cumulativeNotional := b.cumulativeNotional + n
    eventCount := b.eventCount + 1 }

/-- `time_buckets[k]` on the defaultdict followed by the in-place update
`f`: modify the bucket at key `k` if present, otherwise create it lazily
from the factory and append it (dict insertion order). -/
def bumpBucket : List (Int × Bucket) → Int → (Bucket → Bucket) → List (Int × Bucket)
  | [], k, f => [(k, f emptyBucket)]
  | (k', b) :: t, k, f =>
    if k' = k then (k', f b) :: t else (k', b) :: bumpBucket t k f

/-- Bucket lookup (used when iterating `sorted(time_buckets.keys())`). -/
def getBucket : List (Int × Bucket) → Int → Bucket
  | [], _ => emptyBucket
  | (k', b) :: t, k => if k' = k then b else getBucket t k

/-- The mutable accumulator state of the single aggregation pass.
`accountFlows` holds the nested dict `account_flows[lu][tu]` with the
composite pair key `(lu, tu)`. `minTime`/`maxTime` start at
`float('inf')`/`float('-inf')`, modelled as `none`. -/
structure FlowState where
  assetFlows : List ((String × String) × ℚ)
  assetTotals : List (String × ℚ)
  liquidatedByAsset : List (String × ℚ)
  adldByAsset : List (String × ℚ)
  accountFlows : List ((String × String) × ℚ)
  accountTotalsIn : List (String × ℚ)
  accountTotalsOut : List (String × ℚ)
  timeBuckets : List (Int × Bucket)
  minTime : Option Int
  maxTime : Option Int
deriving DecidableEq

/-- The state before the loop over `df.iterrows()`. -/
def emptyFlowState : FlowState :=
  { assetFlows := [], assetTotals := [], liquidatedByAsset := [],
    adldByAsset := [], accountFlows := [], accountTotalsIn := [],
    accountTotalsOut := [], timeBuckets := [], minTime := none,
    maxTime := none }

/-- One iteration of the aggregation loop (source lines 68–105): the
timestamp is read and folded into the running min/max first; then
`notional = abs(float(row.adl_notional))` is taken and the record is
skipped when it is NaN (`none`) or `notional <= 0`; otherwise every
aggregate and the record's one-second time bucket are updated. -/
def flowStep (s : FlowState) (r : FlowRecord) : FlowState :=
  let s :=
    { s with
      minTime := some (match s.minTime with
        | none => r.time
        | some m => min m r.time)
      maxTime := some (match s.maxTime with
        | none => r.time
        | some m => max m r.time) }
  match r.adl_notional with
  | none => s
  | some v =>
    let notional := |v|
    if notional ≤ 0 then s
    else
      let bkey := Int.tdiv r.time 1000 * 1000
      { s with
        liquidatedByAsset := bump s.liquidatedByAsset r.coin notional
        adldByAsset := bump s.adldByAsset r.coin notional
        assetFlows := bump s.assetFlows (r.coin, r.coin) notional
        assetTotals := bump s.assetTotals r.coin notional
        accountFlows := bump s.accountFlows (r.liquidated_user, r.user) notional
        accountTotalsOut := bump s.accountTotalsOut r.liquidated_user notional
        accountTotalsIn := bump s.accountTotalsIn r.user notional
        timeBuckets := bumpBucket s.timeBuckets bkey
          (fun b => bucketAdd b r.coin r.liquidated_user r.user notional) }

/-- The whole aggregation pass over the loaded table. -/
def accumulate (rs : List FlowRecord) : FlowState :=
  rs.foldl flowStep emptyFlowState

/-! ## Flow document assembly (`export_flow_data.py`, lines 120–229) -/

/-- One element of the serialized `timeBuckets` list (source lines 150–170;
the informational `timeISO` string is derived from `time` and omitted). -/
structure BucketSummary where
  time : Int
  cumulativeNotional : ℚ
  cumulativeLiquidated : ℚ
  cumulativeAdld : ℚ
  notionalInBucket : ℚ
  eventCount : Nat
  liquidatedByAsset : List (String × ℚ)
  adldByAsset : List (String × ℚ)
  assetFlows : List ((String × String) × ℚ)
deriving DecidableEq

/-- The loop body of lines 145–171: walk the bucket keys in ascending
order, threading the three running cumulative counters. -/
def buildSeriesAux (tb : List (Int × Bucket)) :
    List Int → ℚ → ℚ → ℚ → List BucketSummary
  | [], _, _, _ => []
  | k :: ks, c, cl, ca =>
    let b := getBucket tb k
    let c' := c + b.cumulativeNotional
    let cl' := cl + sumValues b.liquidatedByAsset
    let ca' := ca + sumValues b.adldByAsset
    { time := k
      cumulativeNotional := c'
      cumulativeLiquidated := cl'
      cumulativeAdld := ca'
      notionalInBucket := b.cumulativeNotional
      eventCount := b.eventCount
      liquidatedByAsset := b.liquidatedByAsset
      adldByAsset := b.adldByAsset
      assetFlows := b.assetFlows.filter (fun p => decide (0 < p.2)) } ::
        buildSeriesAux tb ks c' cl' ca'

/-- `sorted(time_buckets.keys())`, modelled by the stable `insertionSort`. -/
def sortedBucketKeys (s : FlowState) : List Int :=
  (s.timeBuckets.map (·.1)).insertionSort (· ≤ ·)

/-- The serialized `time_buckets_list` (source lines 140–171). -/
def buildTimeSeries (s : FlowState) : List BucketSummary :=
  buildSeriesAux s.timeBuckets (sortedBucketKeys s) 0 0 0

/-- `sorted(d.items(), key=lambda x: x[1], reverse=True)[:50]`: Python's
stable descending sort, modelled by the stable `insertionSort` with the
relation "my value is at least yours". -/
def top50 (l : List (String × ℚ)) : List (String × ℚ) :=
  (l.insertionSort (fun a b => b.2 ≤ a.2)).take 50

/-- `top_accounts_set` (source line 125): the accounts of
`top_liquidated + top_counterparties`; modelled as the concatenated key
list, used only through membership. -/
def topAccountsSet (s : FlowState) : List String :=
  (top50 s.accountTotalsOut ++ top50 s.accountTotalsIn).map (·.1)

/-- A serialized directed account-flow edge. -/
structure FlowEdge where
  source : String
  target : String
  notional : ℚ
deriving DecidableEq

/-- `account_flows_list` (source lines 126–138): every accumulated pair
flow whose source and target are both in `top_accounts_set` and whose
notional is positive. -/
def accountFlowsList (s : FlowState) : List FlowEdge :=
  (s.accountFlows.filter (fun p =>
      decide (p.1.1 ∈ topAccountsSet s) && decide (p.1.2 ∈ topAccountsSet s) &&
      decide (0 < p.2))).map (fun p => ⟨p.1.1, p.1.2, p.2⟩)

/-- The `metadata` block of the flow document (source lines 200–213);
`durationMinutes` is derived from `timeStart`/`timeEnd` and omitted, and
the `int(min_timestamp)` casts are modelled by the `Option Int` trackers
(the cast faults on an empty table, where the tracker is `none`). -/
structure FlowMetadata where
  eventCount : Nat
  timeStart : Option Int
  timeEnd : Option Int
  totalNotionalUsd : ℚ
  totalLiquidatedNotional : ℚ
  totalAdldNotional : ℚ
  uniqueAssets : Nat
  uniqueAccounts : Nat
deriving DecidableEq

/-- Assemble the metadata block from the raw table and the finished
aggregation state: `eventCount` is `len(df)`, the raw row count. -/
def flowMetadata (rs : List FlowRecord) : FlowMetadata :=
  let s := accumulate rs
  { eventCount := rs.length
    timeStart := s.minTime
    timeEnd := s.maxTime
    totalNotionalUsd := sumValues s.assetTotals
    totalLiquidatedNotional := sumValues s.liquidatedByAsset
    totalAdldNotional := sumValues s.adldByAsset
    uniqueAssets := s.assetTotals.length
    uniqueAccounts :=
      ((s.accountTotalsIn.map (·.1)) ++ (s.accountTotalsOut.map (·.1))).dedup.length }

/-! ## Claim C1: end-to-end three-record scenario -/

/-- C1: on the three-record stream
(t=1000000000000, BTC, U1, U2, 100), (t=1000000000500, BTC, U1, U2, 50),
(t=1000000001200, ETH, U3, U2, 200) the aggregation pass yields
assetTotals = {BTC: 150, ETH: 200}; exactly two time buckets, key
1000000000000 with eventCount 2 and in-bucket notional 150, and key
1000000001000 with eventCount 1 and in-bucket notional 200; cumulative
notionals [150, 350] (so 350 after the last bucket); and directed account
flows (U2,U1) ↦ 150 and (U2,U3) ↦ 200. -/
theorem C1_end_to_end_scenario :
    let rs : List FlowRecord :=
      [⟨1000000000000, "BTC", "U1", "U2", some 100⟩,
       ⟨1000000000500, "BTC", "U1", "U2", some 50⟩,
       ⟨1000000001200, "ETH", "U3", "U2", some 200⟩]
    let s := accumulate rs
    let ts := buildTimeSeries s
    s.assetTotals = [("BTC", 150), ("ETH", 200)] ∧
    ts.map (·.time) = [1000000000000, 1000000001000] ∧
    ts.map (·.eventCount) = [2, 1] ∧
    ts.map (·.notionalInBucket) = [150, 200] ∧
    ts.map (·.cumulativeNotional) = [150, 350] ∧
    getD s.accountFlows ("U2", "U1") = 150 ∧
    getD s.accountFlows ("U2", "U3") = 200 := by
  norm_num [accumulate, flowStep, bump, bumpBucket, bucketAdd, emptyBucket,
    emptyFlowState, getD, getBucket, buildTimeSeries, buildSeriesAux,
    sortedBucketKeys, sumValues, Int.tdiv]
  exact ⟨by decide, by decide⟩

/-! ## Claim C2: which records are excluded from the aggregates -/

/-- C2 counterexample: a record with *negative* `adl_notional` is NOT
excluded: the aggregation pass takes `abs(float(row.adl_notional))` before
the `notional <= 0` check, so a single record with `adl_notional = -100`
contributes 100 to `assetTotals` and creates a time bucket — refuting the
claim that zero-or-negative-notional records contribute to nothing. -/
theorem C2_counterexample :
    let r : FlowRecord := ⟨1000, "BTC", "U1", "U2", some (-100)⟩
    (accumulate [r]).assetTotals = [("BTC", 100)] ∧
    (accumulate [r]).timeBuckets ≠ [] ∧
    getD (accumulate [r]).accountFlows ("U2", "U1") = 100 := by
  refine ⟨?_, ?_, ?_⟩ <;>
    norm_num [accumulate, flowStep, bump, bumpBucket, bucketAdd, emptyBucket,
      emptyFlowState, getD, getBucket, sumValues, Int.tdiv]

/-- C2 (amended): a record whose `adl_notional` is missing/NaN (`none`) or
zero is excluded from every aggregate — the step leaves `assetTotals`,
`liquidatedByAsset`, `adldByAsset`, `assetFlows`, `accountFlows`,
`accountTotalsOut`, `accountTotalsIn` and `timeBuckets` unchanged (so no
time bucket is created for its second), touching only the running min/max
timestamps. Records with negative `adl_notional` are not excluded; they
contribute the absolute value (see the counterexample). -/
theorem C2_zero_or_nan_excluded (s : FlowState) (r : FlowRecord)
    (h : r.adl_notional = none ∨ r.adl_notional = some 0) :
    flowStep s r =
      { s with
        minTime := (flowStep s r).minTime
        maxTime := (flowStep s r).maxTime } := by
  rcases h with h | h <;> simp [flowStep, h]

/-- Witness for C2: the excluded-record theorem applied to a concrete
zero-notional record on the empty state. -/
theorem C2_zero_or_nan_excluded_witness :
    flowStep emptyFlowState ⟨500, "BTC", "U1", "U2", some 0⟩ =
      { emptyFlowState with
        minTime := (flowStep emptyFlowState ⟨500, "BTC", "U1", "U2", some 0⟩).minTime
        maxTime := (flowStep emptyFlowState ⟨500, "BTC", "U1", "U2", some 0⟩).maxTime } :=
  C2_zero_or_nan_excluded emptyFlowState ⟨500, "BTC", "U1", "U2", some 0⟩ (Or.inr rfl)

/-! ## Claim C3: prefix-sum invariant of the time-bucket series -/

/-- Each element of the series carries the running total: the cumulative
notional at index `i` is the initial counter plus the sum of the in-bucket
notionals of the first `i+1` summaries. -/
theorem buildSeriesAux_cumulative (tb : List (Int × Bucket)) :
    ∀ (ks : List Int) (c cl ca : ℚ) (i : Nat)
      (h : i < (buildSeriesAux tb ks c cl ca).length),
      ((buildSeriesAux tb ks c cl ca).get ⟨i, h⟩).cumulativeNotional =
        c + (((buildSeriesAux tb ks c cl ca).take (i + 1)).map
              (·.notionalInBucket)).sum
  | [], _, _, _, i, h => by simp [buildSeriesAux] at h
  | k :: ks, c, cl, ca, 0, h => by
    simp [buildSeriesAux]
  | k :: ks, c, cl, ca, i + 1, h => by
    have ih := buildSeriesAux_cumulative tb ks
      (c + (getBucket tb k).cumulativeNotional)
      (cl + sumValues (getBucket tb k).liquidatedByAsset)
      (ca + sumValues (getBucket tb k).adldByAsset) i
      (by simpa [buildSeriesAux] using h)
    simp only [buildSeriesAux, List.get_cons_succ, List.take_succ_cons,
      List.map_cons, List.sum_cons] at *
    rw [ih]
    ring

/-- Every cumulative counter in the series dominates the counter it was
started from, provided all in-bucket notionals are nonnegative. -/
theorem buildSeriesAux_lower_bound (tb : List (Int × Bucket))
    (htb : ∀ p ∈ tb, 0 ≤ p.2.cumulativeNotional) :
    ∀ (ks : List Int) (c cl ca : ℚ),
      ∀ e ∈ buildSeriesAux tb ks c cl ca, c ≤ e.cumulativeNotional
  | [], _, _, _ => by simp [buildSeriesAux]
  | k :: ks, c, cl, ca => by
    have hk : 0 ≤ (getBucket tb k).cumulativeNotional := by
      induction tb with
      | nil => simp [getBucket, emptyBucket]
      | cons p t ih =>
        simp only [getBucket]
        split
        · exact htb p (List.mem_cons_self p t)
        · exact ih (fun q hq => htb q (List.mem_cons_of_mem p hq))
    intro e he
    simp only [buildSeriesAux, List.mem_cons] at he
    rcases he with he | he
    · subst he; simpa using hk
    · have := buildSeriesAux_lower_bound tb htb ks
        (c + (getBucket tb k).cumulativeNotional)
        (cl + sumValues (getBucket tb k).liquidatedByAsset)
        (ca + sumValues (getBucket tb k).adldByAsset) e he
      linarith

/-- Monotonicity of the cumulative counter along the series. -/
theorem buildSeriesAux_mono (tb : List (Int × Bucket))
    (htb : ∀ p ∈ tb, 0 ≤ p.2.cumulativeNotional) :
    ∀ (ks : List Int) (c cl ca : ℚ) (i j : Nat)
      (hi : i < (buildSeriesAux tb ks c cl ca).length)
      (hj : j < (buildSeriesAux tb ks c cl ca).length), i ≤ j →
      ((buildSeriesAux tb ks c cl ca).get ⟨i, hi⟩).cumulativeNotional ≤
        ((buildSeriesAux tb ks c cl ca).get ⟨j, hj⟩).cumulativeNotional
  | [], _, _, _, i, _, hi, _, _ => by simp [buildSeriesAux] at hi
  | k :: ks, c, cl, ca, 0, 0, hi, hj, _ => le_refl _
  | k :: ks, c, cl, ca, 0, j + 1, hi, hj, _ => by
    have hmem : (buildSeriesAux tb (k :: ks) c cl ca).get ⟨j + 1, hj⟩ ∈
        buildSeriesAux tb ks (c + (getBucket tb k).cumulativeNotional)
          (cl + sumValues (getBucket tb k).liquidatedByAsset)
          (ca + sumValues (getBucket tb k).adldByAsset) := by
      simp only [buildSeriesAux, List.get_cons_succ]
      exact List.get_mem _ _ _
    have := buildSeriesAux_lower_bound tb htb ks
      (c + (getBucket tb k).cumulativeNotional)
      (cl + sumValues (getBucket tb k).liquidatedByAsset)
      (ca + sumValues (getBucket tb k).adldByAsset) _ hmem
    simpa [buildSeriesAux] using this
  | k :: ks, c, cl, ca, i + 1, 0, hi, hj, hij => by omega
  | k :: ks, c, cl, ca, i + 1, j + 1, hi, hj, hij => by
    have := buildSeriesAux_mono tb htb ks
      (c + (getBucket tb k).cumulativeNotional)
      (cl + sumValues (getBucket tb k).liquidatedByAsset)
      (ca + sumValues (getBucket tb k).adldByAsset) i j
      (by simpa [buildSeriesAux] using hi)
      (by simpa [buildSeriesAux] using hj)
      (by omega)
    simpa [buildSeriesAux] using this

/-- After any bumping of a bucket with a nonnegative notional, all in-bucket
notional sums stay nonnegative. -/
theorem bumpBucket_cumulative_nonneg (asset lu tu : String) (n : ℚ)
    (hn : 0 ≤ n) :
    ∀ (l : List (Int × Bucket)) (k : Int),
      (∀ p ∈ l, 0 ≤ p.2.cumulativeNotional) →
      ∀ p ∈ bumpBucket l k (fun b => bucketAdd b asset lu tu n),
        0 ≤ p.2.cumulativeNotional
  | [], k, _ => by
    simp only [bumpBucket, List.mem_singleton]
    rintro p rfl
    simp [bucketAdd, emptyBucket, hn]
  | (k', b) :: t, k, h => by
    intro p hp
    simp only [bumpBucket] at hp
    split at hp
    · rcases List.mem_cons.1 hp with rfl | hp
      · have hb := h (k', b) (List.mem_cons_self _ _)
        simp only [bucketAdd] at *
        exact add_nonneg hb hn
      · exact h p (List.mem_cons_of_mem _ hp)
    · rcases List.mem_cons.1 hp with rfl | hp
      · exact h (k', b) (List.mem_cons_self _ _)
      · exact bumpBucket_cumulative_nonneg asset lu tu n hn t k
          (fun q hq => h q (List.mem_cons_of_mem _ hq)) p hp

/-- Invariant of the aggregation pass: every time bucket's in-bucket
notional sum is nonnegative. -/
theorem accumulate_buckets_nonneg (rs : List FlowRecord) :
    ∀ p ∈ (accumulate rs).timeBuckets, 0 ≤ p.2.cumulativeNotional := by
  suffices h : ∀ (rs : List FlowRecord) (s : FlowState),
      (∀ p ∈ s.timeBuckets, 0 ≤ p.2.cumulativeNotional) →
      ∀ p ∈ (rs.foldl flowStep s).timeBuckets, 0 ≤ p.2.cumulativeNotional by
    exact h rs emptyFlowState (by simp [emptyFlowState])
  intro rs
  induction rs with
  | nil => intro s hs; simpa using hs
  | cons r rs ih =>
    intro s hs
    refine ih (flowStep s r) ?_
    rcases hr : r.adl_notional with _ | v
    · simpa [flowStep, hr] using hs
    · by_cases hv : |v| ≤ 0
      · simpa [flowStep, hr, hv] using hs
      · simp only [flowStep, hr, if_neg hv]
        exact bumpBucket_cumulative_nonneg r.coin r.liquidated_user r.user
          |v| (le_of_not_le hv) s.timeBuckets _ hs

/-- C3: in the flow document's ordered time-bucket series, the reported
`cumulativeNotional` at index `i` equals the sum of `notionalInBucket` over
buckets `0..i` inclusive, and the `cumulativeNotional` sequence is
monotonically non-decreasing along the (ascending-bucket-key) series. -/
theorem C3_prefix_sum_monotone (rs : List FlowRecord) :
    (∀ (i : Nat) (e : BucketSummary),
        (buildTimeSeries (accumulate rs))[i]? = some e →
        e.cumulativeNotional =
          (((buildTimeSeries (accumulate rs)).take (i + 1)).map
            (·.notionalInBucket)).sum) ∧
    (∀ (i j : Nat) (ei ej : BucketSummary), i ≤ j →
        (buildTimeSeries (accumulate rs))[i]? = some ei →
        (buildTimeSeries (accumulate rs))[j]? = some ej →
        ei.cumulativeNotional ≤ ej.cumulativeNotional) := by
  constructor
  · intro i e he
    rw [List.getElem?_eq_some] at he
    obtain ⟨h, rfl⟩ := he
    have := buildSeriesAux_cumulative (accumulate rs).timeBuckets
      (sortedBucketKeys (accumulate rs)) 0 0 0 i (by simpa [buildTimeSeries] using h)
    simpa [buildTimeSeries, List.get_eq_getElem] using this
  · intro i j ei ej hij hi hj
    rw [List.getElem?_eq_some] at hi hj
    obtain ⟨hi', rfl⟩ := hi
    obtain ⟨hj', rfl⟩ := hj
    have := buildSeriesAux_mono (accumulate rs).timeBuckets
      (accumulate_buckets_nonneg rs) (sortedBucketKeys (accumulate rs)) 0 0 0
      i j (by simpa [buildTimeSeries] using hi')
      (by simpa [buildTimeSeries] using hj') hij
    simpa [buildTimeSeries, List.get_eq_getElem] using this

/-- Witness for C3: the prefix-sum and monotonicity facts instantiated on a
concrete one-record stream. -/
theorem C3_prefix_sum_monotone_witness :
    (⟨1000, 7, 7, 7, 7, 1, [("BTC", 7)], [("BTC", 7)],
        [(("BTC", "BTC"), 7)]⟩ : BucketSummary).cumulativeNotional =
      (((buildTimeSeries (accumulate [⟨1500, "BTC", "A", "B", some 7⟩])).take 1).map
        (·.notionalInBucket)).sum ∧
    (⟨1000, 7, 7, 7, 7, 1, [("BTC", 7)], [("BTC", 7)],
        [(("BTC", "BTC"), 7)]⟩ : BucketSummary).cumulativeNotional ≤
      (⟨1000, 7, 7, 7, 7, 1, [("BTC", 7)], [("BTC", 7)],
        [(("BTC", "BTC"), 7)]⟩ : BucketSummary).cumulativeNotional := by
  have h : (buildTimeSeries (accumulate [⟨1500, "BTC", "A", "B", some 7⟩]))[0]? =
      some ⟨1000, 7, 7, 7, 7, 1, [("BTC", 7)], [("BTC", 7)],
        [(("BTC", "BTC"), 7)]⟩ := by
    norm_num [accumulate, flowStep, bump, bumpBucket, bucketAdd, emptyBucket,
      emptyFlowState, getBucket, buildTimeSeries, buildSeriesAux,
      sortedBucketKeys, sumValues, Int.tdiv]
  exact ⟨(C3_prefix_sum_monotone [⟨1500, "BTC", "A", "B", some 7⟩]).1 0 _ h,
    (C3_prefix_sum_monotone [⟨1500, "BTC", "A", "B", some 7⟩]).2 0 0 _ _
      (le_refl 0) h h⟩

/-! ## Claim C4: conservation law for assetTotals -/

/-- The notional of a record as it passes the positivity filter of the
aggregation loop: the absolute value of `adl_notional` when that is
present and nonzero, `none` when the record is skipped. -/
def passedNotional (r : FlowRecord) : Option ℚ :=
  match r.adl_notional with
  | none => none
  | some v => if |v| ≤ 0 then none else some |v|

/-- `bump` adds exactly its increment to the total of the dictionary. -/
theorem sumValues_bump {α : Type} [DecidableEq α] :
    ∀ (l : List (α × ℚ)) (k : α) (v : ℚ),
      sumValues (bump l k v) = sumValues l + v
  | [], k, v => by simp [bump, sumValues]
  | (k', x) :: t, k, v => by
    by_cases h : k' = k
    · simp [bump, h, sumValues]
      ring
    · have ih := sumValues_bump t k v
      simp only [sumValues, List.map_cons, List.sum_cons, bump, if_neg h] at ih ⊢
      rw [ih]
      ring

/-- Folding the aggregation step adds the filtered notionals to the
running assetTotals sum. -/
theorem foldl_assetTotals_sum :
    ∀ (rs : List FlowRecord) (s : FlowState),
      sumValues ((rs.foldl flowStep s).assetTotals) =
        sumValues s.assetTotals + (rs.filterMap passedNotional).sum
  | [], s => by simp
  | r :: rs, s => by
    rw [List.foldl_cons, foldl_assetTotals_sum rs (flowStep s r)]
    rcases hr : r.adl_notional with _ | v
    · simp [flowStep, hr, passedNotional]
    · by_cases hv : |v| ≤ 0
      · simp [flowStep, hr, hv, passedNotional]
      · simp [flowStep, hr, hv, passedNotional, sumValues_bump]
        ring

/-- C4: after the aggregation pass over any record stream, the sum of all
`assetTotals` values equals the sum of the per-record (absolute) notionals
of exactly the records that passed the positivity filter. -/
theorem C4_assetTotals_conservation (rs : List FlowRecord) :
    sumValues (accumulate rs).assetTotals =
      (rs.filterMap passedNotional).sum := by
  rw [accumulate, foldl_assetTotals_sum rs emptyFlowState]
  simp [emptyFlowState, sumValues]

/-! ## Claim C5: top-50 gating of emitted account-flow edges -/

/-- C5: every emitted account-flow edge has both endpoints inside the union
of the top-50-by-totalOut and top-50-by-totalIn account sets (an edge with
an endpoint outside both sets is dropped entirely); and — concretely — an
account lying in both top-50 sets can appear both as source and as target
of emitted edges. -/
theorem C5_top50_gating :
    (∀ (s : FlowState) (e : FlowEdge), e ∈ accountFlowsList s →
        e.source ∈ topAccountsSet s ∧ e.target ∈ topAccountsSet s) ∧
    accountFlowsList (accumulate
        [⟨1000, "BTC", "B", "A", some 100⟩, ⟨2000, "BTC", "A", "B", some 50⟩]) =
      [⟨"A", "B", 100⟩, ⟨"B", "A", 50⟩] := by
  constructor
  · intro s e he
    simp only [accountFlowsList, List.mem_map, List.mem_filter] at he
    obtain ⟨p, ⟨hp, hcond⟩, rfl⟩ := he
    simp only [Bool.and_eq_true, decide_eq_true_eq] at hcond
    exact ⟨hcond.1.1, hcond.1.2⟩
  · norm_num [accumulate, flowStep, bump, bumpBucket, bucketAdd, emptyBucket,
      emptyFlowState, accountFlowsList, topAccountsSet, top50, getD,
      sumValues, Int.tdiv, List.filter, List.insertionSort, List.orderedInsert]

/-- Witness for C5: the gating theorem applied to the concrete edge emitted
for a one-record stream. -/
theorem C5_top50_gating_witness :
    (⟨"A", "B", 100⟩ : FlowEdge).source ∈
        topAccountsSet (accumulate [⟨1000, "BTC", "B", "A", some 100⟩]) ∧
    (⟨"A", "B", 100⟩ : FlowEdge).target ∈
        topAccountsSet (accumulate [⟨1000, "BTC", "B", "A", some 100⟩]) :=
  C5_top50_gating.1 (accumulate [⟨1000, "BTC", "B", "A", some 100⟩])
    ⟨"A", "B", 100⟩
    (by norm_num [accumulate, flowStep, bump, bumpBucket, bucketAdd,
      emptyBucket, emptyFlowState, accountFlowsList, topAccountsSet, top50,
      sumValues, Int.tdiv, List.filter, List.insertionSort, List.orderedInsert])

/-! ## Claim C9: the reported time range covers skipped records too -/

/-- Combine an optional running minimum with a new optional minimum. -/
def optMin : Option Int → Option Int → Option Int
  | none, b => b
  | some x, none => some x
  | some x, some y => some (min x y)

/-- Combine an optional running maximum with a new optional maximum. -/
def optMax : Option Int → Option Int → Option Int
  | none, b => b
  | some x, none => some x
  | some x, some y => some (max x y)

/-- The minimum of a list of timestamps, `none` on the empty list. -/
def listMin? : List Int → Option Int
  | [] => none
  | t :: ts => optMin (some t) (listMin? ts)

/-- The maximum of a list of timestamps, `none` on the empty list. -/
def listMax? : List Int → Option Int
  | [] => none
  | t :: ts => optMax (some t) (listMax? ts)

theorem optMin_none_right (a : Option Int) : optMin a none = a := by
  cases a <;> rfl

theorem optMax_none_right (a : Option Int) : optMax a none = a := by
  cases a <;> rfl

theorem optMin_assoc (a b c : Option Int) :
    optMin (optMin a b) c = optMin a (optMin b c) := by
  cases a <;> cases b <;> cases c <;> simp [optMin, min_assoc]

theorem optMax_assoc (a b c : Option Int) :
    optMax (optMax a b) c = optMax a (optMax b c) := by
  cases a <;> cases b <;> cases c <;> simp [optMax, max_assoc]

/-- One aggregation step always folds the record's timestamp into the
running minimum, before and regardless of the notional filter. -/
theorem flowStep_minTime (s : FlowState) (r : FlowRecord) :
    (flowStep s r).minTime = optMin s.minTime (some r.time) := by
  rcases hm : s.minTime with _ | m <;>
    rcases hr : r.adl_notional with _ | v <;>
    simp only [flowStep, hr, hm, optMin] <;>
    split <;> rfl

/-- One aggregation step always folds the record's timestamp into the
running maximum, before and regardless of the notional filter. -/
theorem flowStep_maxTime (s : FlowState) (r : FlowRecord) :
    (flowStep s r).maxTime = optMax s.maxTime (some r.time) := by
  rcases hm : s.maxTime with _ | m <;>
    rcases hr : r.adl_notional with _ | v <;>
    simp only [flowStep, hr, hm, optMax] <;>
    split <;> rfl

theorem foldl_minTime :
    ∀ (rs : List FlowRecord) (s : FlowState),
      (rs.foldl flowStep s).minTime =
        optMin s.minTime (listMin? (rs.map (·.time)))
  | [], s => by simp [listMin?, optMin_none_right]
  | r :: rs, s => by
    rw [List.foldl_cons, foldl_minTime rs (flowStep s r), flowStep_minTime,
      optMin_assoc]
    rfl

theorem foldl_maxTime :
    ∀ (rs : List FlowRecord) (s : FlowState),
      (rs.foldl flowStep s).maxTime =
        optMax s.maxTime (listMax? (rs.map (·.time)))
  | [], s => by simp [listMax?, optMax_none_right]
  | r :: rs, s => by
    rw [List.foldl_cons, foldl_maxTime rs (flowStep s r), flowStep_maxTime,
      optMax_assoc]
    rfl

/-- C9: the reported metadata time range is the running minimum and maximum
of `timestampMs` over ALL processed records — records skipped by the
notional filter still count, because the timestamp is read and folded into
the min/max before the notional check. -/
theorem C9_time_range_includes_skipped (rs : List FlowRecord) :
    (flowMetadata rs).timeStart = listMin? (rs.map (·.time)) ∧
    (flowMetadata rs).timeEnd = listMax? (rs.map (·.time)) := by
  constructor
  · show (accumulate rs).minTime = _
    rw [accumulate, foldl_minTime rs emptyFlowState]
    rfl
  · show (accumulate rs).maxTime = _
    rw [accumulate, foldl_maxTime rs emptyFlowState]
    rfl

/-! ## Claim C10: metadata.eventCount counts raw rows, not contributing ones -/

/-- Total event count over a bucket dictionary. -/
def bucketCountSum (tb : List (Int × Bucket)) : Nat :=
  (tb.map (·.2.eventCount)).sum

/-- Bumping one bucket adds exactly one to the total event count. -/
theorem bumpBucket_countSum (asset lu tu : String) (n : ℚ) :
    ∀ (l : List (Int × Bucket)) (k : Int),
      bucketCountSum (bumpBucket l k (fun b => bucketAdd b asset lu tu n)) =
        bucketCountSum l + 1
  | [], k => by simp [bumpBucket, bucketCountSum, bucketAdd, emptyBucket]
  | (k', b) :: t, k => by
    by_cases h : k' = k
    · simp [bumpBucket, h, bucketCountSum, bucketAdd]
      omega
    · have ih := bumpBucket_countSum asset lu tu n t k
      simp only [bucketCountSum, List.map_cons, List.sum_cons, bumpBucket,
        if_neg h] at ih ⊢
      omega

/-- Folding the aggregation step adds one bucket event per record passing
the positivity filter. -/
theorem foldl_bucketCountSum :
    ∀ (rs : List FlowRecord) (s : FlowState),
      bucketCountSum ((rs.foldl flowStep s).timeBuckets) =
        bucketCountSum s.timeBuckets +
          (rs.filter (fun r => (passedNotional r).isSome)).length
  | [], s => by simp
  | r :: rs, s => by
    rw [List.foldl_cons, foldl_bucketCountSum rs (flowStep s r)]
    rcases hr : r.adl_notional with _ | v
    · have hp : (passedNotional r).isSome = false := by
        simp [passedNotional, hr]
      rw [List.filter_cons]
      simp [flowStep, hr, hp]
    · by_cases hv : |v| ≤ 0
      · have hp : (passedNotional r).isSome = false := by
          simp [passedNotional, hr, hv]
        rw [List.filter_cons]
        simp [flowStep, hr, hv, hp]
      · have hp : (passedNotional r).isSome = true := by
          simp [passedNotional, hr, hv]
        rw [List.filter_cons]
        have hbs := bumpBucket_countSum r.coin r.liquidated_user r.user |v|
          s.timeBuckets (Int.tdiv r.time 1000 * 1000)
        simp only [flowStep, hr, if_neg hv, hp, if_true, List.length_cons]
        rw [hbs]
        omega

/-- The key list of a bucket dictionary after a bump: unchanged when the
key was present, extended by the new key otherwise. -/
theorem bumpBucket_keys (f : Bucket → Bucket) :
    ∀ (l : List (Int × Bucket)) (k : Int),
      (bumpBucket l k f).map (·.1) =
        if k ∈ l.map (·.1) then l.map (·.1) else l.map (·.1) ++ [k]
  | [], k => by simp [bumpBucket]
  | (k', b) :: t, k => by
    by_cases h : k' = k
    · simp [bumpBucket, h]
    · have ih := bumpBucket_keys f t k
      by_cases hk : k ∈ t.map (·.1) <;>
        simp [bumpBucket, h, Ne.symm h, hk, ih]

/-- The aggregation pass never duplicates a bucket key. -/
theorem accumulate_bucket_keys_nodup (rs : List FlowRecord) :
    ((accumulate rs).timeBuckets.map (·.1)).Nodup := by
  suffices h : ∀ (rs : List FlowRecord) (s : FlowState),
      (s.timeBuckets.map (·.1)).Nodup →
      (((rs.foldl flowStep s).timeBuckets).map (·.1)).Nodup by
    exact h rs emptyFlowState (by simp [emptyFlowState])
  intro rs
  induction rs with
  | nil => intro s hs; simpa using hs
  | cons r rs ih =>
    intro s hs
    refine ih (flowStep s r) ?_
    rcases hr : r.adl_notional with _ | v
    · simpa [flowStep, hr] using hs
    · by_cases hv : |v| ≤ 0
      · simpa [flowStep, hr, hv] using hs
      · simp only [flowStep, hr, if_neg hv]
        rw [bumpBucket_keys]
        split
        · exact hs
        · next hmem =>
            rw [List.nodup_append]
            refine ⟨hs, List.nodup_singleton _, ?_⟩
            intro a ha hk
            rw [List.mem_singleton] at hk
            exact hmem (hk ▸ ha)

/-- The event counts of the serialized series are the per-key bucket
lookups along the key sequence. -/
theorem buildSeriesAux_eventCounts (tb : List (Int × Bucket)) :
    ∀ (ks : List Int) (c cl ca : ℚ),
      (buildSeriesAux tb ks c cl ca).map (·.eventCount) =
        ks.map (fun k => (getBucket tb k).eventCount)
  | [], _, _, _ => rfl
  | k :: ks, c, cl, ca => by
    simp only [buildSeriesAux, List.map_cons]
    rw [buildSeriesAux_eventCounts tb ks]

/-- Looking each key of a duplicate-free bucket dictionary back up returns
the stored buckets. -/
theorem map_getBucket_keys :
    ∀ (tb : List (Int × Bucket)), ((tb.map (·.1)).Nodup) →
      (tb.map (·.1)).map (fun k => getBucket tb k) = tb.map (·.2)
  | [], _ => rfl
  | (k, b) :: t, h => by
    rw [List.map_cons] at h
    have hk : k ∉ t.map (·.1) := (List.nodup_cons.mp h).1
    have ht : (t.map (·.1)).Nodup := (List.nodup_cons.mp h).2
    simp only [List.map_cons, getBucket, if_pos rfl]
    congr 1
    rw [List.map_congr_left (fun k' hk' => ?_), map_getBucket_keys t ht]
    have hne : ¬k = k' := fun e => hk (e ▸ hk')
    simp [getBucket, hne]

/-- The total of the serialized `eventCount` fields equals the total of the
accumulated bucket event counts. -/
theorem buildTimeSeries_eventCount_sum (rs : List FlowRecord) :
    ((buildTimeSeries (accumulate rs)).map (·.eventCount)).sum =
      bucketCountSum (accumulate rs).timeBuckets := by
  rw [buildTimeSeries, buildSeriesAux_eventCounts]
  have hperm : List.Perm (sortedBucketKeys (accumulate rs))
      ((accumulate rs).timeBuckets.map (·.1)) :=
    List.perm_insertionSort _ _
  have h1 : ((sortedBucketKeys (accumulate rs)).map
        (fun k => (getBucket (accumulate rs).timeBuckets k).eventCount)).sum =
      (((accumulate rs).timeBuckets.map (·.1)).map
        (fun k => (getBucket (accumulate rs).timeBuckets k).eventCount)).sum :=
    (hperm.map _).sum_eq
  rw [h1]
  have h2 := map_getBucket_keys (accumulate rs).timeBuckets
    (accumulate_bucket_keys_nodup rs)
  have h3 : (((accumulate rs).timeBuckets.map (·.1)).map
        (fun k => (getBucket (accumulate rs).timeBuckets k).eventCount)) =
      ((((accumulate rs).timeBuckets.map (·.1)).map
        (fun k => getBucket (accumulate rs).timeBuckets k)).map
          (fun b => b.eventCount)) := by
    simp [List.map_map, Function.comp]
  rw [h3, h2, bucketCountSum, List.map_map]
  rfl

/-- A filter misses at least one element that fails its predicate. -/
theorem filter_length_lt {α : Type} {p : α → Bool} :
    ∀ {l : List α} {x : α}, x ∈ l → p x = false →
      (l.filter p).length < l.length
  | a :: t, x, hx, hpx => by
    rcases List.mem_cons.1 hx with rfl | hx
    · rw [List.filter_cons, hpx]
      simp only [List.length_cons, if_false, Bool.false_eq_true, ite_false]
      exact Nat.lt_succ_of_le (List.length_filter_le _ t)
    · have ih := filter_length_lt hx hpx
      rw [List.filter_cons]
      split
      · simpa using Nat.succ_lt_succ ih
      · exact Nat.lt_trans ih (Nat.lt_succ_self _)

/-- C10: `metadata.eventCount` is the raw row count `len(df)`, including
records excluded from every aggregate by the notional filter; whenever the
stream contains a zero-notional record, it strictly exceeds the total of
the per-bucket `eventCount` fields of the serialized series. -/
theorem C10_eventCount_counts_raw_rows (rs : List FlowRecord) :
    (flowMetadata rs).eventCount = rs.length ∧
    ((∃ r ∈ rs, r.adl_notional = some 0) →
      ((buildTimeSeries (accumulate rs)).map (·.eventCount)).sum <
        (flowMetadata rs).eventCount) := by
  refine ⟨rfl, ?_⟩
  rintro ⟨r, hr, hr0⟩
  rw [buildTimeSeries_eventCount_sum, accumulate, foldl_bucketCountSum]
  have hlt := @filter_length_lt FlowRecord
    (fun r => (passedNotional r).isSome) rs r hr
    (by simp [passedNotional, hr0])
  simpa [emptyFlowState, bucketCountSum] using hlt

/-- Witness for C10: a two-record stream with one zero-notional record has
`metadata.eventCount = 2` but only one bucketed event. -/
theorem C10_eventCount_counts_raw_rows_witness :
    (flowMetadata [⟨1000, "BTC", "U1", "U2", some 0⟩,
        ⟨2000, "ETH", "U3", "U4", some 5⟩]).eventCount = 2 ∧
    ((buildTimeSeries (accumulate [⟨1000, "BTC", "U1", "U2", some 0⟩,
        ⟨2000, "ETH", "U3", "U4", some 5⟩])).map (·.eventCount)).sum <
      (flowMetadata [⟨1000, "BTC", "U1", "U2", some 0⟩,
        ⟨2000, "ETH", "U3", "U4", some 5⟩]).eventCount :=
  ⟨(C10_eventCount_counts_raw_rows _).1,
    (C10_eventCount_counts_raw_rows _).2
      ⟨⟨1000, "BTC", "U1", "U2", some 0⟩, by simp, rfl⟩⟩

/-! ## Record normalizer (`export_adl_events_json.py`) -/

/-- Python `int(x)` on a float: truncation toward zero. -/
def truncQ (q : ℚ) : Int := if q < 0 then Int.ceil q else Int.floor q

/-- Decimal digit value of a character. -/
def digitVal (c : Char) : Option Nat :=
  if '0' ≤ c ∧ c ≤ '9' then some (c.toNat - '0'.toNat) else none

/-- Parse an all-digit character run as a natural number (used by both the
ISO parser and the numeric-string parser). -/
def digitsToNatAux : Nat → List Char → Option Nat
  | acc, [] => some acc
  | acc, c :: t =>
    match digitVal c with
    | some d => digitsToNatAux (acc * 10 + d) t
    | none => none

/-- `int(s)` on a nonempty digit string, `none` otherwise. -/
def digitsToNat (l : List Char) : Option Nat :=
  if l.isEmpty then none else digitsToNatAux 0 l

/-- Python `s.split(sep)` for a single-character separator (empty fields
are kept, the empty string splits to one empty field). -/
def splitOnChar (c : Char) : List Char → List (List Char)
  | [] => [[]]
  | x :: t =>
    let r := splitOnChar c t
    if x = c then [] :: r
    else
      match r with
      | [] => [[x]]
      | h :: t' => (x :: h) :: t'

/-- Python `s.replace(pat, rep)` for a single-character pattern. -/
def replaceChar (c : Char) (rep : List Char) : List Char → List Char
  | [] => []
  | x :: t =>
    if x = c then rep ++ replaceChar c rep t else x :: replaceChar c rep t

/-- A strictly-2-digit decimal field, as validated by
`datetime.fromisoformat`. -/
def parse2 (cs : List Char) : Option Nat :=
  if cs.length = 2 then digitsToNat cs else none

/-- A strictly-4-digit decimal field (the year of an ISO date). -/
def parse4 (cs : List Char) : Option Nat :=
  if cs.length = 4 then digitsToNat cs else none

/-- Gregorian leap-year test. -/
def isLeap (y : Int) : Bool :=
  (y % 4 == 0 && y % 100 != 0) || y % 400 == 0

/-- Days in a Gregorian month. -/
def daysInMonth (y : Int) (m : Nat) : Nat :=
  match m with
  | 1 => 31 | 2 => if isLeap y then 29 else 28 | 3 => 31 | 4 => 30
  | 5 => 31 | 6 => 30 | 7 => 31 | 8 => 31 | 9 => 30 | 10 => 31
  | 11 => 30 | 12 => 31 | _ => 0

/-- Days from the Unix epoch to the given proleptic-Gregorian civil date
(the standard days-from-civil computation, matching
`datetime.toordinal`-based arithmetic). -/
def daysFromCivil (y : Int) (m d : Nat) : Int :=
  let y' : Int := if m ≤ 2 then y - 1 else y
  let era : Int := Int.fdiv y' 400
  let yoe : Int := y' - era * 400
  let mp : Int := (m : Int) + (if 2 < m then -3 else 9)
  let doy : Int := Int.fdiv (153 * mp + 2) 5 + (d : Int) - 1
  let doe : Int := yoe * 365 + Int.fdiv yoe 4 - Int.fdiv yoe 100 + doy
  era * 146097 + doe - 719468

/-- The `YYYY-MM-DD` date parse of `datetime.fromisoformat`. -/
def parseDate (cs : List Char) : Option (Int × Nat × Nat) :=
  match splitOnChar '-' cs with
  | [ys, ms, ds] =>
    match parse4 ys, parse2 ms, parse2 ds with
    | some y, some m, some d =>
      if 1 ≤ m ∧ m ≤ 12 ∧ 1 ≤ d ∧ d ≤ daysInMonth (Int.ofNat y) m then
        some ((y : Int), m, d)
      else none
    | _, _, _ => none
  | _ => none

/-- Split a time string at the first `+`/`-`, separating the clock part
from a possible UTC-offset suffix, as `fromisoformat` does. -/
def splitTzAux : List Char → List Char × Option (Char × List Char)
  | [] => ([], none)
  | c :: t =>
    if c = '+' ∨ c = '-' then ([], some (c, t))
    else
      let p := splitTzAux t
      (c :: p.1, p.2)

/-- The `HH:MM[:SS]` UTC-offset parse of `fromisoformat`, in seconds
(fractional offsets are not modelled). -/
def parseOffset (cs : List Char) : Option Int :=
  match splitOnChar ':' cs with
  | [hs, ms] =>
    match parse2 hs, parse2 ms with
    | some h, some m =>
      if h < 24 ∧ m < 60 then some ((h : Int) * 3600 + (m : Int) * 60)
      else none
    | _, _ => none
  | [hs, ms, ss] =>
    match parse2 hs, parse2 ms, parse2 ss with
    | some h, some m, some sec =>
      if h < 24 ∧ m < 60 ∧ sec < 60 then
        some ((h : Int) * 3600 + (m : Int) * 60 + (sec : Int))
      else none
    | _, _, _ => none
  | _ => none

/-- The `HH[:MM[:SS[.fff|.ffffff]]]` clock parse of `fromisoformat`:
seconds within the day and microseconds. -/
def parseTimeOfDay (cs : List Char) : Option (Nat × Nat) :=
  match splitOnChar ':' cs with
  | [hs] =>
    match parse2 hs with
    | some h => if h < 24 then some (h * 3600, 0) else none
    | none => none
  | [hs, ms] =>
    match parse2 hs, parse2 ms with
    | some h, some m =>
      if h < 24 ∧ m < 60 then some (h * 3600 + m * 60, 0) else none
    | _, _ => none
  | [hs, ms, ssf] =>
    match parse2 hs, parse2 ms with
    | some h, some m =>
      if h < 24 ∧ m < 60 then
        match splitOnChar '.' ssf with
        | [ss] =>
          match parse2 ss with
          | some sec =>
            if sec < 60 then some (h * 3600 + m * 60 + sec, 0) else none
          | none => none
        | [ss, frac] =>
          match parse2 ss, digitsToNat frac with
          | some sec, some f =>
            if sec < 60 ∧ (frac.length = 3 ∨ frac.length = 6) then
              some (h * 3600 + m * 60 + sec,
                if frac.length = 3 then f * 1000 else f)
            else none
          | _, _ => none
        | _ => none
      else none
    | _, _ => none
  | _ => none

/-- The string front-end of `datetime.fromisoformat`: the string is split
as date `s[:10]`, single separator character, clock-and-offset `s[11:]`;
returns the POSIX seconds of the parsed instant (an integer) and the
microsecond field. A naive datetime (no offset) is interpreted by
`.timestamp()` in the environment timezone, modelled as UTC. -/
def fromIsoParts (cs : List Char) : Option (Int × Nat) :=
  match parseDate (cs.take 10) with
  | none => none
  | some (y, m, d) =>
    if cs.length ≤ 10 then
      some (daysFromCivil y m d * 86400, 0)
    else
      let p := splitTzAux (cs.drop 11)
      match parseTimeOfDay p.1 with
      | none => none
      | some (secs, micro) =>
        match p.2 with
        | none => some (daysFromCivil y m d * 86400 + secs, micro)
        | some (sgn, offcs) =>
          match parseOffset offcs with
          | none => none
          | some off =>
            let offSigned : Int := if sgn = '-' then -off else off
            some (daysFromCivil y m d * 86400 + secs - offSigned, micro)

/-- `int(ts * 1000)` where `ts` is the POSIX timestamp `base + micro/1e6`:
exact rational arithmetic followed by truncation toward zero (float
rounding of `.timestamp()` is neglected). -/
def isoEpochMs (base : Int) (micro : Nat) : Int :=
  truncQ (((base : ℚ) + (micro : ℚ) / 1000000) * 1000)

/-- `int(datetime.fromisoformat(s).timestamp() * 1000)`. -/
def fromIsoMs (cs : List Char) : Option Int :=
  (fromIsoParts cs).map (fun p => isoEpochMs p.1 p.2)

/-- Unsigned decimal literal `digits[.digits]` of Python `float()`. -/
def parseUnsignedDec (cs : List Char) : Option ℚ :=
  match splitOnChar '.' cs with
  | [ip] => (digitsToNat ip).map (fun n => (n : ℚ))
  | [ip, fp] =>
    if ip.isEmpty ∧ fp.isEmpty then none
    else
      match (if ip.isEmpty then some 0 else digitsToNat ip),
            (if fp.isEmpty then some 0 else digitsToNat fp) with
      | some n, some f =>
        some ((n : ℚ) + (f : ℚ) / ((10 : ℚ) ^ fp.length))
      | _, _ => none
  | _ => none

/-- Signed decimal literal of Python `float()`. -/
def parseSignedDec (cs : List Char) : Option ℚ :=
  match cs with
  | '-' :: t => (parseUnsignedDec t).map (fun q => -q)
  | '+' :: t => parseUnsignedDec t
  | _ => parseUnsignedDec cs

/-- Signed integer literal (the exponent of a float literal). -/
def parseSignedInt (cs : List Char) : Option Int :=
  match cs with
  | '-' :: t => (digitsToNat t).map (fun n => -(n : Int))
  | '+' :: t => (digitsToNat t).map (fun n => (n : Int))
  | _ => (digitsToNat cs).map (fun n => (n : Int))

/-- Python whitespace stripped by `float()`. -/
def isSpaceChar (c : Char) : Bool :=
  c = ' ' ∨ c = '\t' ∨ c = '\n' ∨ c = '\r'

/-- Strip surrounding whitespace. -/
def trimChars (l : List Char) : List Char :=
  ((l.dropWhile isSpaceChar).reverse.dropWhile isSpaceChar).reverse

/-- Python `float(s)` on finite decimal/scientific literals (the special
values inf/nan are not modelled; they do not occur in timestamp data). -/
def parseFloat (s : String) : Option ℚ :=
  match splitOnChar 'e' ((trimChars s.data).map Char.toLower) with
  | [m] => parseSignedDec m
  | [m, ex] =>
    match parseSignedDec m, parseSignedInt ex with
    | some q, some e => some (q * (10 : ℚ) ^ e)
    | _, _ => none
  | _ => none

/-- A scalar cell of the `time` column: a number or a string. -/
inductive TsValue where
  | num (x : ℚ)
  | str (s : String)
deriving DecidableEq

/-- `parse_timestamp` (source lines 22–43): numbers use the 1e12
seconds-vs-milliseconds threshold; strings are first parsed as ISO-8601
after replacing `Z` by `+00:00`, then as a numeric string with the same
threshold; `none` on total failure. -/
def parse_timestamp : TsValue → Option Int
  | .num x =>
    if x < 1000000000000 then some (truncQ (x * 1000))
    else some (truncQ x)
  | .str s =>
    match fromIsoMs (replaceChar 'Z' ("+00:00".data) s.data) with
    | some ms => some ms
    | none =>
      match parseFloat s with
      | some x =>
        if x < 1000000000000 then some (truncQ (x * 1000))
        else some (truncQ x)
      | none => none

/-! ## Claim C6: parse_timestamp threshold and examples -/

/-- Truncation of an integer is itself. -/
theorem truncQ_intCast (n : Int) : truncQ ((n : ℚ)) = n := by
  rw [truncQ]
  split <;> simp

/-- A whole-second instant serializes to exactly `base * 1000` ms. -/
theorem isoEpochMs_zero_micro (base : Int) : isoEpochMs base 0 = base * 1000 := by
  have h : ((base : ℚ) + ((0 : Nat) : ℚ) / 1000000) * 1000 =
      ((base * 1000 : Int) : ℚ) := by
    push_cast
    ring
  rw [isoEpochMs, h, truncQ_intCast]

/-- C6: `parse_timestamp` applies the 1e12 threshold to every numeric
input (below: seconds, multiplied by 1000; otherwise: already
milliseconds); and on the examples: `1696900000000 ↦ 1696900000000`,
`1696900000 ↦ 1696900000000`, `"2023-10-10T00:00:00Z" ↦ 1696896000000`
(ISO-8601 with trailing Z as UTC), `"1696900000" ↦ 1696900000000`
(numeric string fallback), and `"not-a-timestamp" ↦ none`. -/
theorem C6_parse_timestamp_threshold :
    (∀ x : ℚ, parse_timestamp (.num x) =
        some (if x < 1000000000000 then truncQ (x * 1000) else truncQ x)) ∧
    parse_timestamp (.num 1696900000000) = some 1696900000000 ∧
    parse_timestamp (.num 1696900000) = some 1696900000000 ∧
    parse_timestamp (.str "2023-10-10T00:00:00Z") = some 1696896000000 ∧
    parse_timestamp (.str "1696900000") = some 1696900000000 ∧
    parse_timestamp (.str "not-a-timestamp") = none := by
  refine ⟨?_, ?_, ?_, ?_, ?_, ?_⟩
  · intro x
    simp only [parse_timestamp]
    split <;> rfl
  · norm_num [parse_timestamp, truncQ]
  · norm_num [parse_timestamp, truncQ]
  · have h1 : fromIsoMs (replaceChar 'Z' ("+00:00".data)
        ("2023-10-10T00:00:00Z").data) = some 1696896000000 := by
      rw [fromIsoMs, show fromIsoParts (replaceChar 'Z' ("+00:00".data)
          ("2023-10-10T00:00:00Z").data) = some (1696896000, 0) by decide]
      rw [Option.map_some']
      rw [show isoEpochMs 1696896000 0 = 1696896000 * 1000 from
        isoEpochMs_zero_micro _]
      norm_num
    simp only [parse_timestamp, h1]
  · have h1 : fromIsoMs (replaceChar 'Z' ("+00:00".data)
        ("1696900000").data) = none := by decide
    have h2 : parseFloat "1696900000" = some 1696900000 := by decide
    simp only [parse_timestamp, h1, h2]
    norm_num [truncQ]
  · decide

/-! ## Normalizer records, side inference, and the event list -/

/-- Python's substring test `needle in hay` on character lists. -/
def hasSub (needle : List Char) : List Char → Bool
  | [] => needle.isEmpty
  | c :: t => needle.isPrefixOf (c :: t) || hasSub needle t

/-- One row of the input table as read by the normalizer: every column the
script consults, each `none` when absent or NaN (`pd.isna`). String-typed
cells model the script's `str(...)` coercions. -/
structure RawRecord where
  time : Option TsValue
  coin : Option String
  asset : Option String
  ticker : Option String
  symbol : Option String
  adl_notional : Option ℚ
  notional : Option ℚ
  usd : Option ℚ
  value : Option ℚ
  side : Option String
  direction : Option String
  position_size : Option ℚ
  liquidated_user : Option String
  user : Option String
  account_value_realtime : Option ℚ
  total_equity : Option ℚ
  leverage_realtime : Option ℚ
  closed_pnl : Option ℚ
  position_unrealized_pnl : Option ℚ
deriving DecidableEq

/-- A row with every column absent. -/
def emptyRaw : RawRecord :=
  ⟨none, none, none, none, none, none, none, none, none, none, none, none,
   none, none, none, none, none, none, none⟩

/-- Rule 3 of `determine_side`: the sign of `position_size`
(zero falls through to the default "long"). -/
def sideFromPosition (r : RawRecord) : String :=
  match r.position_size with
  | some p =>
    if 0 < p then "long"
    else if p < 0 then "short"
    else "long"
  | none => "long"

/-- Rule 2 of `determine_side`: substring match on the lowercased
`direction` field, "long" checked first. -/
def sideFromDirection (r : RawRecord) : String :=
  match r.direction with
  | some dv =>
    let d := dv.data.map Char.toLower
    if hasSub ("long".data) d then "long"
    else if hasSub ("short".data) d then "short"
    else sideFromPosition r
  | none => sideFromPosition r

/-- `determine_side` (source lines 45–70): rule 1 is a case-insensitive
substring match on the `side` field ({b, buy, long} → long checked before
{a, sell, short} → short); unresolved rules fall through to the
`direction` field, then to the sign of `position_size`, then to "long". -/
def determine_side (r : RawRecord) : String :=
  match r.side with
  | some sv =>
    let sc := sv.data.map Char.toLower
    if hasSub ("b".data) sc || hasSub ("buy".data) sc ||
        hasSub ("long".data) sc then "long"
    else if hasSub ("a".data) sc || hasSub ("sell".data) sc ||
        hasSub ("short".data) sc then "short"
    else sideFromDirection r
  | none => sideFromDirection r

/-- First present value among the asset candidate columns
`coin, asset, ticker, symbol`. -/
def resolveAsset (r : RawRecord) : Option String :=
  r.coin <|> r.asset <|> r.ticker <|> r.symbol

/-- First present value among the notional candidate columns
`adl_notional, notional, usd, value` (no absolute value here, unlike the
flow aggregator). -/
def resolveNotional (r : RawRecord) : Option ℚ :=
  r.adl_notional <|> r.notional <|> r.usd <|> r.value

/-- The timestamp resolution of the normalizer loop: `parse_timestamp` on
the `time` column when present. -/
def resolveTs (r : RawRecord) : Option Int :=
  match r.time with
  | some v => parse_timestamp v
  | none => none

/-- One normalized event (source lines 129–154; the informational
`timestampISO` string is derived from the timestamp and omitted;
`batchId`, serialized as a decimal string, is kept as its numeric value
`int(timestamp_ms / 1000)`). -/
structure NormalizedEvent where
  timestamp : Int
  asset : String
  notionalUsd : ℚ
  side : String
  liquidatedUserId : String
  targetUserId : String
  batchId : Int
  equityBefore : Option ℚ
  equityAfter : Option ℚ
  leverage : Option ℚ
  realizedPnl : Option ℚ
  unrealizedPnl : Option ℚ
deriving DecidableEq

/-- One iteration of the normalizer loop (source lines 89–156): drop the
record when the timestamp cannot be resolved or the resolved notional is
missing or non-positive; otherwise emit the normalized event with its
fallbacks ("UNKNOWN" asset, empty user ids, optional fields passed
through). -/
def normalizeOne (r : RawRecord) : Option NormalizedEvent :=
  match resolveTs r with
  | none => none
  | some t =>
    match resolveNotional r with
    | none => none
    | some n =>
      if n ≤ 0 then none
      else
        some
          { timestamp := t
            asset := (resolveAsset r).getD "UNKNOWN"
            notionalUsd := n
            side := determine_side r
            liquidatedUserId := r.liquidated_user.getD ""
            targetUserId := r.user.getD ""
            batchId := Int.tdiv t 1000
            equityBefore := r.account_value_realtime
            equityAfter := r.total_equity
            leverage := r.leverage_realtime
            realizedPnl := r.closed_pnl
            unrealizedPnl := r.position_unrealized_pnl }

/-- The normalizer pipeline: per-record normalization followed by
`events.sort(key=lambda x: x.timestamp)` — Python's stable sort, modelled
by the stable `insertionSort`. -/
def events (rs : List RawRecord) : List NormalizedEvent :=
  (rs.filterMap normalizeOne).insertionSort (fun a b => a.timestamp ≤ b.timestamp)

/-! ## Claim C8: determine_side priority order and examples -/

/-- C8: `determine_side` checks `side` (case-insensitive substring,
{b,buy,long} → long before {a,sell,short} → short), then `direction`, then
the sign of `position_size`, then defaults to "long", the first matching
rule winning: `{side:"B"} ↦ long`, `{side:"A"} ↦ short`,
`{direction:"short"} ↦ short`, `{position_size:-5} ↦ short`, `{} ↦ long`;
a resolving `side` wins over contrary later fields, and an unresolvable
`side` falls through to `direction`. -/
theorem C8_determine_side_priority :
    determine_side { emptyRaw with side := some "B" } = "long" ∧
    determine_side { emptyRaw with side := some "A" } = "short" ∧
    determine_side { emptyRaw with direction := some "short" } = "short" ∧
    determine_side { emptyRaw with position_size := some (-5) } = "short" ∧
    determine_side emptyRaw = "long" ∧
    determine_side { emptyRaw with
      side := some "B"
      direction := some "short"
      position_size := some (-5) } = "long" ∧
    determine_side { emptyRaw with
      side := some "xyz"
      direction := some "short" } = "short" := by
  refine ⟨by decide, by decide, by decide, ?_, by decide, by decide, by decide⟩
  norm_num [determine_side, sideFromDirection, sideFromPosition, emptyRaw]

/-! ## Claim C7: normalization emits one event per valid record, stably
sorted by timestamp -/

instance : IsTotal NormalizedEvent (fun a b => a.timestamp ≤ b.timestamp) :=
  ⟨fun a b => le_total a.timestamp b.timestamp⟩

instance : IsTrans NormalizedEvent (fun a b => a.timestamp ≤ b.timestamp) :=
  ⟨fun _ _ _ hab hbc => le_trans hab hbc⟩

/-- C7: for every input stream, the normalized output is a permutation of
the per-record normalization results (exactly one event per record that
normalizes, i.e. per record with a resolvable timestamp and a resolvable
positive notional — the final conjunct); it is sorted non-decreasing by
timestamp; and the sort is stable: for every timestamp the events carrying
it appear in the output in their original relative order. -/
theorem C7_normalize_sorted_stable (rs : List RawRecord) :
    List.Perm (events rs) (rs.filterMap normalizeOne) ∧
    List.Sorted (fun a b => a.timestamp ≤ b.timestamp) (events rs) ∧
    (∀ t : Int, (events rs).filter (fun e => e.timestamp == t) =
        (rs.filterMap normalizeOne).filter (fun e => e.timestamp == t)) ∧
    (∀ r : RawRecord, (normalizeOne r).isSome ↔
        ((resolveTs r).isSome ∧ ∃ n, resolveNotional r = some n ∧ 0 < n)) := by
  refine ⟨List.perm_insertionSort _ _, List.sorted_insertionSort _ _, ?_, ?_⟩
  · intro t
    have hApw : ((rs.filterMap normalizeOne).filter
        (fun e => e.timestamp == t)).Pairwise
          (fun a b => a.timestamp ≤ b.timestamp) := by
      refine List.pairwise_of_forall_mem_list ?_
      intro a ha b hb
      have ha' := (List.mem_filter.1 ha).2
      have hb' := (List.mem_filter.1 hb).2
      rw [beq_iff_eq] at ha' hb'
      rw [ha', hb']
    have h1 : List.Sublist
        ((rs.filterMap normalizeOne).filter (fun e => e.timestamp == t))
        (events rs) :=
      List.sublist_insertionSort hApw (List.filter_sublist _)
    have h2 : ((rs.filterMap normalizeOne).filter
        (fun e => e.timestamp == t)).filter (fun e => e.timestamp == t) =
        (rs.filterMap normalizeOne).filter (fun e => e.timestamp == t) :=
      List.filter_eq_self.2 (fun a ha => (List.mem_filter.1 ha).2)
    have h3 := h2 ▸ (h1.filter (fun e : NormalizedEvent => e.timestamp == t))
    have hlen : ((events rs).filter (fun e => e.timestamp == t)).length =
        ((rs.filterMap normalizeOne).filter (fun e => e.timestamp == t)).length :=
      ((List.perm_insertionSort _ _).filter _).length_eq
    exact (h3.eq_of_length hlen.symm).symm
  · intro r
    constructor
    · intro h
      rcases ht : resolveTs r with _ | t
      · simp [normalizeOne, ht] at h
      · rcases hn : resolveNotional r with _ | n
        · simp [normalizeOne, ht, hn] at h
        · by_cases h0 : n ≤ 0
          · simp [normalizeOne, ht, hn, h0] at h
          · exact ⟨rfl, n, rfl, lt_of_not_le h0⟩
    · rintro ⟨hts, n, hn, hpos⟩
      rcases ht : resolveTs r with _ | t
      · rw [ht] at hts
        simp at hts
      · simp only [normalizeOne, ht, hn, if_neg (not_le.2 hpos)]
        rfl
